import Mathlib

/-!
Shallow embedding of the per-CPU slab cache (`TcmallocSlab`) from
`tcmalloc/internal/percpu_tcmalloc.h`, together with theorems about the
properties its specification states.

Modelling conventions:
* The packed 64-bit `Header` is a structure of four natural numbers, one per
  `uint16_t` field, in the declaration order of the C++ struct
  (`current`, `end_copy`, `begin`, `end`).  The C++ `end` field is called
  `end_` because `end` is a Lean keyword.  All stores into a 16-bit field go
  through `u16`/`i2u16`, which truncate exactly as the C++ conversions do.
* Where the C++ code computes with `int` (the promoted difference of two
  `uint16_t` values) we compute with `Int`; where it converts such a value to
  `size_t` or `uint16_t` we apply `i2size` or `i2u16`, which perform the
  modular conversion of C++.
* A `(cpu, size_class)` sub-slab is a `SubSlab`: its header plus the per-CPU
  pointer-slot arena, modelled as a total function from slot index (the word
  offset from the start of the per-CPU region, exactly the unit used by the
  header fields) to the stored pointer value (a `Nat`, `0` playing nullptr).
* The restartable-sequence fast paths (`TcmallocSlab_Internal_Push/Pop`) and
  the CAS-based `Grow`/`Shrink` are modelled in the committed case: the model
  is the state transition performed by the operation when its single-CPU
  atomic section commits.  Handlers are abstract functions; an operation that
  invokes a handler returns a value computed from the handler's result, so
  theorems quantifying over all handlers capture the call exactly.
-/

namespace PercpuTcmalloc

/-- C++ conversion of a non-negative value to `uint16_t` (truncation mod 2^16). -/
def u16 (n : Nat) : Nat := n % 65536

/-- C++ conversion of a (possibly negative) `int` value to `uint16_t`. -/
def i2u16 (i : Int) : Nat := (i % 65536).toNat

/-- C++ conversion of a (possibly negative) `int` value to `size_t` (64 bits). -/
def i2size (i : Int) : Nat := (i % 18446744073709551616).toNat

/-- Slab header (packed, atomically updated 64-bit) of one `(cpu, size_class)`
sub-slab.  Fields in C++ declaration order; each is a `uint16_t` slot index
into the per-CPU region.  The slot array is `[begin, end_)` and the occupied
slots are `[begin, current)`; `end_copy` mirrors `end_` and is not overwritten
by `Drain`'s lock. -/
structure Header where
  current : Nat
  end_copy : Nat
  begin : Nat
  end_ : Nat
deriving DecidableEq

/-- `Header::IsLocked`: the header is locked exactly when `begin == 0xffff`. -/
def Header.IsLocked (h : Header) : Bool := h.begin == 65535

/-- `Header::Lock`: a single 32-bit store writes `begin = 0xffff` and
`end = 0`, leaving the other 32-bit half (`current`, `end_copy`) intact. -/
def Header.Lock (h : Header) : Header := { h with begin := 65535, end_ := 0 }

/-- All four `uint16_t` fields hold representable 16-bit values.  Every header
read from the real slab memory satisfies this by construction. -/
def Wf (h : Header) : Prop :=
  h.current ≤ 65535 ∧ h.end_copy ≤ 65535 ∧ h.begin ≤ 65535 ∧ h.end_ ≤ 65535

instance (h : Header) : Decidable (Wf h) := by unfold Wf; infer_instance

/-- Unlocked-state header invariant: `begin ≤ current ≤ end` and
`end_copy == end`. -/
def Inv (h : Header) : Prop :=
  h.begin ≤ h.current ∧ h.current ≤ h.end_ ∧ h.end_copy = h.end_

instance (h : Header) : Decidable (Inv h) := by unfold Inv; infer_instance

/-- `TcmallocSlab::Length`: `hdr.IsLocked() ? 0 : hdr.current - hdr.begin`
(the `uint16_t` difference is promoted to `int` and returned as `size_t`). -/
def Length (h : Header) : Nat :=
  if h.IsLocked then 0 else i2size ((h.current : Int) - h.begin)

/-- `TcmallocSlab::Capacity`: `hdr.IsLocked() ? 0 : hdr.end - hdr.begin`. -/
def Capacity (h : Header) : Nat :=
  if h.IsLocked then 0 else i2size ((h.end_ : Int) - h.begin)

/-- Local `n` of `TcmallocSlab::Grow`:
`std::min<uint16_t>(len, max_cap - (old.end - old.begin))`. -/
def growN (max_cap len : Nat) (h : Header) : Nat :=
  min (u16 len) (i2u16 ((max_cap : Int) - ((h.end_ : Int) - h.begin)))

/-- `TcmallocSlab::Grow` in the case where its header CAS commits on `cpu`
(the loop body with a successful `CompareAndSwapHeader`).  Returns the updated
header and the size_t return value.  `max_cap` is `max_capacity(ToUint8(shift))`.
The guard returns 0 without any CAS; otherwise the CAS installs
`end += n`, `end_copy += n` and `n = growN` is returned. -/
def Grow (max_cap len : Nat) (h : Header) : Header × Nat :=
  if h.IsLocked ∨ i2size ((h.end_ : Int) - h.begin) = max_cap ∨ h.begin = 0 then
    (h, 0)
  else
    ({ h with
        end_ := u16 (h.end_ + growN max_cap len h),
        end_copy := u16 (h.end_copy + growN max_cap len h) },
     growN max_cap len h)

/-- Local `n` of `TcmallocSlab::Shrink`:
`std::min<uint16_t>(len, old.end - old.current)`. -/
def shrinkN (len : Nat) (h : Header) : Nat :=
  min (u16 len) (i2u16 ((h.end_ : Int) - h.current))

/-- `TcmallocSlab::Shrink` in the case where its header CAS commits on `cpu`.
The guard returns 0 without any CAS; otherwise the CAS installs
`end -= n`, `end_copy -= n` and `n = shrinkN` is returned. -/
def Shrink (len : Nat) (h : Header) : Header × Nat :=
  if h.IsLocked ∨ h.current = h.end_ ∨ h.begin = 0 then (h, 0)
  else
    ({ h with
        end_ := i2u16 ((h.end_ : Int) - shrinkN len h),
        end_copy := i2u16 ((h.end_copy : Int) - shrinkN len h) },
     shrinkN len h)

/-- One `(cpu, size_class)` sub-slab: its header and the pointer-slot arena of
the per-CPU region, indexed by word offset from the region start. -/
structure SubSlab where
  hdr : Header
  slots : Nat → Nat

/-- C++ `OverflowHandler`: `int (*)(int cpu, size_t size_class, void* item,
void* arg)`. -/
def OverflowHandler : Type := Nat → Nat → Nat → Nat → Int

/-- C++ `UnderflowHandler`: `void* (*)(int cpu, size_t size_class, void* arg)`. -/
def UnderflowHandler : Type := Nat → Nat → Nat → Nat

/-- `NoopOverflow` returns -1. -/
def NoopOverflow : OverflowHandler := fun _ _ _ _ => -1

/-- `NoopUnderflow` returns nullptr. -/
def NoopUnderflow : UnderflowHandler := fun _ _ _ => 0

/-- `TcmallocSlab::Push`, i.e. `TcmallocSlab_Internal_Push` in the committed
case followed by the `>= 0` test.  If `current < end` the item is stored at
slot `current`, `current` is incremented with a 16-bit store, and the result
is `true` (the internal function returns 0).  Otherwise nothing is modified,
`overflow_handler(cpu, size_class, item, arg)` runs and `Push` returns whether
its result is non-negative. -/
def Push (s : SubSlab) (cpu size_class : Nat) (item : Nat)
    (overflow_handler : OverflowHandler) (arg : Nat) : SubSlab × Bool :=
  if s.hdr.current < s.hdr.end_ then
    (⟨{ s.hdr with current := u16 (s.hdr.current + 1) },
      fun j => if j = s.hdr.current then item else s.slots j⟩, true)
  else
    (s, decide (0 ≤ overflow_handler cpu size_class item arg))

/-- `TcmallocSlab::Pop`, i.e. `TcmallocSlab_Internal_Pop` in the committed
case.  If `current > begin` the result is slot `current - 1`, and `current`
is decremented with a 16-bit store.  Otherwise nothing is modified and the
result is `underflow_handler(cpu, size_class, arg)`. -/
def Pop (s : SubSlab) (cpu size_class : Nat)
    (underflow_handler : UnderflowHandler) (arg : Nat) : SubSlab × Nat :=
  if s.hdr.begin < s.hdr.current then
    (⟨{ s.hdr with current := u16 (s.hdr.current - 1) }, s.slots⟩,
     s.slots (s.hdr.current - 1))
  else
    (s, underflow_handler cpu size_class arg)

/-- A sequence of `Push` operations, one per list element, in list order. -/
def pushMany (cpu size_class arg : Nat) (f : OverflowHandler)
    (s : SubSlab) (l : List Nat) : SubSlab :=
  l.foldl (fun t a => (Push t cpu size_class a f arg).1) s

/-- A sequence of `k` `Pop` operations; returns the final sub-slab and the
popped values in pop order. -/
def popMany (cpu size_class arg : Nat) (g : UnderflowHandler) :
    SubSlab → Nat → SubSlab × List Nat
  | s, 0 => (s, [])
  | s, k + 1 =>
    let p := Pop s cpu size_class g arg
    let r := popMany cpu size_class arg g p.1 k
    (r.1, p.2 :: r.2)

/-- `TcmallocSlab::ShrinkOtherCache` on one sub-slab, in the committed,
quiescent case (phase 2's lock loop has succeeded; `current` and `end_copy`
survive the 32-bit lock store, `begin` was collected in phase 1).  Returns the
final sub-slab, the returned `to_shrink`, and `some batch` when the
`unused < len` branch handed `batch` to `shrink_handler` (`none` when the
handler was not invoked). -/
def ShrinkOtherCache (s : SubSlab) (len : Nat) : SubSlab × Nat × Option (List Nat) :=
  let begin0 := s.hdr.begin
  let cur0 := s.hdr.current
  let ec0 := s.hdr.end_copy
  let unused := i2u16 ((ec0 : Int) - cur0)
  let actual_pop :=
    if unused < len then min (u16 (len - unused)) (i2u16 ((cur0 : Int) - begin0))
    else 0
  let calls :=
    if unused < len then
      some ((List.range actual_pop).map (fun i => s.slots (cur0 - actual_pop + i)))
    else none
  let cur1 := if unused < len then i2u16 ((cur0 : Int) - actual_pop) else cur0
  let to_shrink := min (u16 len) (i2u16 ((ec0 : Int) - cur1))
  let ec1 := i2u16 ((ec0 : Int) - to_shrink)
  (⟨⟨cur1, ec1, begin0, ec1⟩, s.slots⟩, to_shrink, calls)

/-- One CPU's slab: the `NumClasses` headers and the shared slot arena of the
per-CPU region. -/
structure CpuSlab where
  hdrs : Nat → Header
  slots : Nat → Nat

/-- Locking every header of a CPU, as `StopConcurrentMutations` does (in the
quiescent case one pass suffices and is the committed effect). -/
def lockAll (numClasses : Nat) (hdrs : Nat → Header) : Nat → Header :=
  fun sc => if sc < numClasses then (hdrs sc).Lock else hdrs sc

/-- `TcmallocSlab::DrainCpu`: for each size class in increasing order, read
the (locked) header, compute `size = header.current - begins[sc]` and
`cap = header.end_copy - begins[sc]`, and hand
`(size_class, &slots[begins[sc]], size, cap)` to the drain handler.  Each list
entry records one handler invocation. -/
def DrainCpu (numClasses : Nat) (c : CpuSlab) (begins : Nat → Nat) :
    List (Nat × List Nat × Nat × Nat) :=
  (List.range numClasses).map (fun sc =>
    let h := c.hdrs sc
    let size := i2size ((h.current : Int) - begins sc)
    let cap := i2size ((h.end_copy : Int) - begins sc)
    (sc, (List.range size).map (fun i => c.slots (begins sc + i)), size, cap))

/-- `TcmallocSlab::Drain` in the quiescent case: phase 1 snapshots `begin` of
every class, phase 2 locks every header (`current`/`end_copy` survive), phase
3 runs `DrainCpu`, phase 4 resets `current = begin`, and phase 5 stores the
unlocked header `{current = begin, end_copy = begin, begin, end = begin}`. -/
def Drain (numClasses : Nat) (c : CpuSlab) :
    CpuSlab × List (Nat × List Nat × Nat × Nat) :=
  let begins := fun sc => (c.hdrs sc).begin
  let locked := lockAll numClasses c.hdrs
  let calls := DrainCpu numClasses ⟨locked, c.slots⟩ begins
  let final := fun sc =>
    if sc < numClasses then (⟨begins sc, begins sc, begins sc, begins sc⟩ : Header)
    else locked sc
  (⟨final, c.slots⟩, calls)

/-- The header written for one size class by `InitCpuImpl` phase 5:
`{current = begin, end_copy = begin, begin, end = begin}` where `begin` is the
computed slot offset (checked to fit in `uint16_t`). -/
def initCpuHeader (b : Nat) : Header := ⟨b, b, b, b⟩

/-- One operation of the slab, as a transition on a single sub-slab's header.
Each constructor is the committed effect of one public operation on the header
of the `(cpu, size_class)` it mutates.  The `grow` side conditions record the
configuration validity enforced at `Init`/`InitCpu`: the per-class capacity
returned by the capacity callback fits in 16 bits and the class's slot range
`[begin, begin + max_cap]` stays within 16-bit offsets (the layout check
crashes otherwise). -/
inductive OpStep : Header → Header → Prop where
  | push (s : SubSlab) (cpu sc item arg : Nat) (f : OverflowHandler) :
      OpStep s.hdr (Push s cpu sc item f arg).1.hdr
  | pop (s : SubSlab) (cpu sc arg : Nat) (g : UnderflowHandler) :
      OpStep s.hdr (Pop s cpu sc g arg).1.hdr
  | grow (h : Header) (max_cap len : Nat) (hmc : max_cap ≤ 65535)
      (hfit : h.begin + max_cap ≤ 65535) (hdiff : h.end_ ≤ h.begin + max_cap) :
      OpStep h (Grow max_cap len h).1
  | shrink (h : Header) (len : Nat) : OpStep h (Shrink len h).1
  | initcpu (h : Header) (b : Nat) (hb : b ≤ 65535) : OpStep h (initCpuHeader b)
  | drain (h : Header) : OpStep h (initCpuHeader h.begin)
  | shrinkOther (s : SubSlab) (len : Nat) (hnl : s.hdr.IsLocked = false) :
      OpStep s.hdr (ShrinkOtherCache s len).1.hdr

/-! Helper lemmas about the modular conversions. -/

theorem u16_eq_of_le (n : Nat) (h : n ≤ 65535) : u16 n = n := by
  simp only [u16]; omega

theorem i2u16_sub_eq (a b : Nat) (hba : b ≤ a) (hle : a - b ≤ 65535) :
    i2u16 ((a : Int) - b) = a - b := by
  simp only [i2u16]; omega

theorem i2size_sub_eq (a b : Nat) (hba : b ≤ a) (hle : a ≤ 65535) :
    i2size ((a : Int) - b) = a - b := by
  simp only [i2size]; omega

theorem isLocked_iff (h : Header) : h.IsLocked = true ↔ h.begin = 65535 := by
  simp [Header.IsLocked]

/-! Evaluation lemmas for `Grow` and `Shrink`, shared by several claims. -/

theorem grow_guard_eq (h : Header) (max_cap len : Nat)
    (hg : h.IsLocked = true ∨ i2size ((h.end_ : Int) - h.begin) = max_cap ∨
      h.begin = 0) :
    Grow max_cap len h = (h, 0) := by
  rcases hg with hl | hm | h0
  · simp [Grow, hl]
  · simp [Grow, hm]
  · simp [Grow, h0]

theorem grow_commit_eq (h : Header) (max_cap len : Nat)
    (hl : h.IsLocked = false) (hm : h.end_ - h.begin ≠ max_cap) (h0 : h.begin ≠ 0)
    (hbe : h.begin ≤ h.end_) (hec : h.end_copy = h.end_)
    (hdm : h.end_ - h.begin ≤ max_cap) (hmc : max_cap ≤ 65535)
    (hfit : h.begin + max_cap ≤ 65535) :
    Grow max_cap len h =
      ({ h with
          end_ := h.end_ + min (len % 65536) (max_cap - (h.end_ - h.begin)),
          end_copy := h.end_copy + min (len % 65536) (max_cap - (h.end_ - h.begin)) },
       min (len % 65536) (max_cap - (h.end_ - h.begin))) := by
  have hd : h.end_ ≤ 65535 := by omega
  have hsz : i2size ((h.end_ : Int) - h.begin) = h.end_ - h.begin :=
    i2size_sub_eq _ _ hbe hd
  have hn : growN max_cap len h = min (len % 65536) (max_cap - (h.end_ - h.begin)) := by
    have hcap : i2u16 ((max_cap : Int) - ((h.end_ : Int) - h.begin)) =
        max_cap - (h.end_ - h.begin) := by
      simp only [i2u16]
      omega
    simp only [growN, hcap]
    rfl
  have hguard : ¬(h.IsLocked = true ∨
      i2size ((h.end_ : Int) - h.begin) = max_cap ∨ h.begin = 0) := by
    rw [hsz]
    simp [hl, hm, h0]
  simp only [Grow, Bool.not_eq_true] at hguard ⊢
  rw [if_neg (by simpa using hguard), hn, u16_eq_of_le _ (by omega),
    u16_eq_of_le _ (by omega)]

theorem shrink_guard_eq (h : Header) (len : Nat)
    (hg : h.IsLocked = true ∨ h.current = h.end_ ∨ h.begin = 0) :
    Shrink len h = (h, 0) := by
  rcases hg with hl | hm | h0
  · simp [Shrink, hl]
  · simp [Shrink, hm]
  · simp [Shrink, h0]

theorem shrink_commit_eq (h : Header) (len : Nat)
    (hl : h.IsLocked = false) (hm : h.current ≠ h.end_) (h0 : h.begin ≠ 0)
    (hce : h.current ≤ h.end_) (hee : h.end_ ≤ h.end_copy)
    (hecle : h.end_copy ≤ 65535) (hd : h.end_ ≤ 65535) :
    Shrink len h =
      ({ h with
          end_ := h.end_ - min (len % 65536) (h.end_ - h.current),
          end_copy := h.end_copy - min (len % 65536) (h.end_ - h.current) },
       min (len % 65536) (h.end_ - h.current)) := by
  have hn : shrinkN len h = min (len % 65536) (h.end_ - h.current) := by
    have hsub : i2u16 ((h.end_ : Int) - h.current) = h.end_ - h.current :=
      i2u16_sub_eq _ _ hce (by omega)
    simp only [shrinkN, hsub]
    rfl
  have hguard : ¬(h.IsLocked = true ∨ h.current = h.end_ ∨ h.begin = 0) := by
    simp [hl, hm, h0]
  have h1 : i2u16 ((h.end_ : Int) -
      (min (len % 65536) (h.end_ - h.current) : Nat)) =
      h.end_ - min (len % 65536) (h.end_ - h.current) := by
    simp only [i2u16]
    omega
  have h2 : i2u16 ((h.end_copy : Int) -
      (min (len % 65536) (h.end_ - h.current) : Nat)) =
      h.end_copy - min (len % 65536) (h.end_ - h.current) := by
    simp only [i2u16]
    omega
  simp only [Shrink, Bool.not_eq_true] at hguard ⊢
  rw [if_neg (by simpa using hguard), hn, h1, h2]

theorem capacity_unlocked (h : Header) (hl : h.IsLocked = false)
    (hbe : h.begin ≤ h.end_) (hd : h.end_ ≤ 65535) :
    Capacity h = h.end_ - h.begin := by
  simp only [Capacity, hl, Bool.false_eq_true, if_false]
  exact i2size_sub_eq _ _ hbe hd

/-- Claim C9: `Header::Lock` writes `begin = 0xFFFF` and `end = 0` in the 32-bit
half of the header, leaving `current` and `end_copy` unchanged;
`Header::IsLocked` returns true exactly when `begin == 0xFFFF`; and a header
just locked is locked with `end == 0`. -/
theorem lock_is_locked_spec (h : Header) :
    h.Lock = ⟨h.current, h.end_copy, 65535, 0⟩ ∧
    h.Lock.current = h.current ∧ h.Lock.end_copy = h.end_copy ∧
    h.Lock.begin = 65535 ∧ h.Lock.end_ = 0 ∧
    (h.IsLocked = true ↔ h.begin = 65535) ∧
    h.Lock.IsLocked = true ∧ h.Lock.end_ = 0 := by
  refine ⟨rfl, rfl, rfl, rfl, rfl, isLocked_iff h, ?_, rfl⟩
  simp [Header.Lock, Header.IsLocked]

/-- Claim C10: on a locked header, `Length` and `Capacity` both return 0; on
an unlocked header they return `current - begin` and `end - begin`. -/
theorem length_capacity_locked (h : Header) :
    (h.IsLocked = true → Length h = 0 ∧ Capacity h = 0) ∧
    (h.IsLocked = false → h.begin ≤ h.current → h.current ≤ 65535 →
      Length h = h.current - h.begin) ∧
    (h.IsLocked = false → h.begin ≤ h.end_ → h.end_ ≤ 65535 →
      Capacity h = h.end_ - h.begin) := by
  refine ⟨fun hl => ?_, fun hl h1 h2 => ?_, fun hl h1 h2 => ?_⟩
  · simp [Length, Capacity, hl]
  · simp only [Length, hl, if_neg Bool.false_ne_true, Bool.false_eq_true,
      if_false]
    exact i2size_sub_eq _ _ h1 h2
  · simp only [Capacity, hl, Bool.false_eq_true, if_false]
    exact i2size_sub_eq _ _ h1 h2

/-- Claim C10 witness: a concrete locked header has Length = Capacity = 0 and
a concrete unlocked header has Length = current - begin, Capacity = end - begin. -/
theorem length_capacity_locked_witness :
    (Length ⟨3, 0, 65535, 0⟩ = 0 ∧ Capacity ⟨3, 0, 65535, 0⟩ = 0) ∧
    Length ⟨3, 5, 1, 5⟩ = 3 - 1 ∧ Capacity ⟨3, 5, 1, 5⟩ = 5 - 1 :=
  ⟨(length_capacity_locked ⟨3, 0, 65535, 0⟩).1 (by decide),
   (length_capacity_locked ⟨3, 5, 1, 5⟩).2.1 (by decide) (by decide) (by decide),
   (length_capacity_locked ⟨3, 5, 1, 5⟩).2.2 (by decide) (by decide) (by decide)⟩

/-- Claim C4 counterexample: the claim states that in the non-guard case Grow
increments capacity by `n = min(len, max_cap - (end - begin))`.  At
`len = 65536`, `max_cap = 5` and header `(current, end_copy, begin, end) =
(1, 1, 1, 1)` the non-guard case applies, `min(len, max_cap - (end - begin))
= 5`, but `Grow` converts `len` to `uint16_t` (0) and returns 0 with the
header unchanged. -/
theorem grow_increment_counterexample :
    ¬((Header.IsLocked ⟨1, 1, 1, 1⟩ = true ∨ (1 : Nat) - 1 = 5 ∨ (1 : Nat) = 0) ∨
      (Grow 5 65536 ⟨1, 1, 1, 1⟩).2 = min 65536 (5 - (1 - 1))) ∧
    Grow 5 65536 ⟨1, 1, 1, 1⟩ = (⟨1, 1, 1, 1⟩, 0) := by
  constructor
  · intro hc
    rcases hc with hg | hn
    · revert hg; decide
    · revert hn; decide
  · decide

/-- Claim C4, amended for the `uint16_t` conversion of `len` (`std::min<uint16_t>`
truncates `len` mod 2^16): Grow returns 0 when the header is locked, when
`end - begin == max_cap`, or when `begin == 0`; otherwise, when its CAS
commits on `cpu`, it increments `end` and `end_copy` by
`n = min(len mod 2^16, max_cap - (end - begin))` and returns `n`, never making
`end - begin` exceed `max_cap`.  The non-guard part is stated for valid
configurations: 16-bit fields, `begin ≤ end`, `end_copy == end`,
`end - begin ≤ max_cap`, and a class slot range within 16-bit offsets
(`max_cap ≤ 0xFFFF`, `begin + max_cap ≤ 0xFFFF`). -/
theorem grow_increment_amended (h : Header) (max_cap len : Nat)
    (hwf : Wf h) (hbe : h.begin ≤ h.end_) (hec : h.end_copy = h.end_)
    (hdm : h.end_ - h.begin ≤ max_cap) (hmc : max_cap ≤ 65535)
    (hfit : h.begin + max_cap ≤ 65535) :
    ((h.IsLocked = true ∨ h.end_ - h.begin = max_cap ∨ h.begin = 0) →
       Grow max_cap len h = (h, 0)) ∧
    (h.IsLocked = false → h.end_ - h.begin ≠ max_cap → h.begin ≠ 0 →
       (Grow max_cap len h).2 = min (len % 65536) (max_cap - (h.end_ - h.begin)) ∧
       (Grow max_cap len h).1 =
         { h with
             end_ := h.end_ + min (len % 65536) (max_cap - (h.end_ - h.begin)),
             end_copy := h.end_copy + min (len % 65536) (max_cap - (h.end_ - h.begin)) } ∧
       (Grow max_cap len h).1.end_ - (Grow max_cap len h).1.begin ≤ max_cap) := by
  obtain ⟨hc, he, hb, hd⟩ := hwf
  constructor
  · intro hg
    refine grow_guard_eq h max_cap len ?_
    rcases hg with hl | hm | h0
    · exact Or.inl hl
    · exact Or.inr (Or.inl (by rw [i2size_sub_eq _ _ hbe hd]; exact hm))
    · exact Or.inr (Or.inr h0)
  · intro hl hm h0
    rw [grow_commit_eq h max_cap len hl hm h0 hbe hec hdm hmc hfit]
    refine ⟨rfl, rfl, ?_⟩
    simp only
    omega

/-- Claim C4 witness: Grow with `len = 3`, `max_cap = 5` on an unlocked header
with `begin = end = 1` grants all 3 slots. -/
theorem grow_increment_amended_witness :
    (Grow 5 3 ⟨1, 1, 1, 1⟩).2 = min (3 % 65536) (5 - (1 - 1)) ∧
    (Grow 5 3 ⟨1, 1, 1, 1⟩).1 =
      { (⟨1, 1, 1, 1⟩ : Header) with
          end_ := 1 + min (3 % 65536) (5 - (1 - 1)),
          end_copy := 1 + min (3 % 65536) (5 - (1 - 1)) } ∧
    (Grow 5 3 ⟨1, 1, 1, 1⟩).1.end_ - (Grow 5 3 ⟨1, 1, 1, 1⟩).1.begin ≤ 5 :=
  (grow_increment_amended ⟨1, 1, 1, 1⟩ 5 3 (by decide) (by decide) (by decide)
    (by decide) (by decide) (by decide)).2 (by decide) (by decide) (by decide)

/-- Claim C5 counterexample: the claim states that in the non-guard case
Shrink decreases `end` and `end_copy` by `min(len, end - current)` and returns
that amount.  At `len = 65536` and header `(current, end_copy, begin, end) =
(1, 3, 1, 3)` the non-guard case applies and `min(len, end - current) = 2`,
but `Shrink` converts `len` to `uint16_t` (0) and returns 0 with the header
unchanged. -/
theorem shrink_decrement_counterexample :
    ¬((Header.IsLocked ⟨1, 3, 1, 3⟩ = true ∨ (1 : Nat) = 3 ∨ (1 : Nat) = 0) ∨
      (Shrink 65536 ⟨1, 3, 1, 3⟩).2 = min 65536 (3 - 1)) ∧
    Shrink 65536 ⟨1, 3, 1, 3⟩ = (⟨1, 3, 1, 3⟩, 0) := by
  constructor
  · intro hc
    rcases hc with hg | hn
    · revert hg; decide
    · revert hn; decide
  · decide

/-- Claim C5, amended for the `uint16_t` conversion of `len`
(`std::min<uint16_t>` truncates `len` mod 2^16): when its CAS commits on
`cpu`, Shrink decreases `end` and `end_copy` by exactly
`min(len mod 2^16, end - current)` and returns that amount, never reducing
`end` below `current`; it returns 0 when the header is locked, when
`current == end`, or when `begin == 0`. -/
theorem shrink_decrement_amended (h : Header) (len : Nat)
    (hwf : Wf h) (hce : h.current ≤ h.end_) (hec : h.end_copy = h.end_) :
    ((h.IsLocked = true ∨ h.current = h.end_ ∨ h.begin = 0) →
       Shrink len h = (h, 0)) ∧
    (h.IsLocked = false → h.current ≠ h.end_ → h.begin ≠ 0 →
       (Shrink len h).2 = min (len % 65536) (h.end_ - h.current) ∧
       (Shrink len h).1 =
         { h with
             end_ := h.end_ - min (len % 65536) (h.end_ - h.current),
             end_copy := h.end_copy - min (len % 65536) (h.end_ - h.current) } ∧
       h.current ≤ (Shrink len h).1.end_) := by
  obtain ⟨hc, he, hb, hd⟩ := hwf
  constructor
  · intro hg
    exact shrink_guard_eq h len hg
  · intro hl hm h0
    rw [shrink_commit_eq h len hl hm h0 hce (by omega) he hd]
    refine ⟨rfl, rfl, ?_⟩
    simp only
    omega

/-- Claim C5 witness: Shrink with `len = 2` on an unlocked header with
`current = 1`, `end = 3` removes both free slots. -/
theorem shrink_decrement_amended_witness :
    (Shrink 2 ⟨1, 3, 1, 3⟩).2 = min (2 % 65536) (3 - 1) ∧
    (Shrink 2 ⟨1, 3, 1, 3⟩).1 =
      { (⟨1, 3, 1, 3⟩ : Header) with
          end_ := 3 - min (2 % 65536) (3 - 1),
          end_copy := 3 - min (2 % 65536) (3 - 1) } ∧
    (1 : Nat) ≤ (Shrink 2 ⟨1, 3, 1, 3⟩).1.end_ :=
  (shrink_decrement_amended ⟨1, 3, 1, 3⟩ 2 (by decide) (by decide)
    (by decide)).2 (by decide) (by decide) (by decide)

/-- Claim C8 counterexample: on the empty sub-slab header
`(current, end_copy, begin, end) = (1, 4, 1, 4)` (so `current == begin` and
`Capacity = 3`) with `max_cap = 10` and `len = 8`, Grow's CAS commits and
grants only `7 = max_cap - 3` slots (capacity 10), then Shrink's CAS commits
and removes `min(8, 10) = 8` slots, leaving `Capacity = 2 ≠ 3`: the pair is
not a no-op on Capacity. -/
theorem grow_shrink_roundtrip_counterexample :
    Header.current ⟨1, 4, 1, 4⟩ = Header.begin ⟨1, 4, 1, 4⟩ ∧
    (Grow 10 8 ⟨1, 4, 1, 4⟩).2 = 7 ∧
    (Shrink 8 (Grow 10 8 ⟨1, 4, 1, 4⟩).1).2 = 8 ∧
    ¬Capacity ((Shrink 8 (Grow 10 8 ⟨1, 4, 1, 4⟩).1).1) =
      Capacity ⟨1, 4, 1, 4⟩ := by
  refine ⟨rfl, by decide, by decide, by decide⟩

/-- Claim C8, amended with the hypothesis that Grow is not capped: on an empty
sub-slab (`current == begin`), if `(end - begin) + (len mod 2^16) ≤
max_capacity(shift)` — i.e. the requested increment fits below the capacity
bound, so Grow grants all of it — then Grow followed by Shrink with the same
`len`, both committing on `cpu`, leaves `Capacity` unchanged.  (Stated for
valid configurations: 16-bit fields, `end_copy == end`, `begin ≤ end`,
`end - begin ≤ max_cap ≤ 0xFFFF`, `begin + max_cap ≤ 0xFFFF`.) -/
theorem grow_shrink_roundtrip_amended (h : Header) (max_cap len : Nat)
    (hwf : Wf h) (hcb : h.current = h.begin) (hec : h.end_copy = h.end_)
    (hbe : h.begin ≤ h.end_) (hdm : h.end_ - h.begin ≤ max_cap)
    (hmc : max_cap ≤ 65535) (hfit : h.begin + max_cap ≤ 65535)
    (hnotcap : (h.end_ - h.begin) + len % 65536 ≤ max_cap) :
    Capacity ((Shrink len (Grow max_cap len h).1).1) = Capacity h := by
  obtain ⟨hc, he, hb, hd⟩ := hwf
  by_cases hl : h.IsLocked = true
  · rw [grow_guard_eq h max_cap len (Or.inl hl), shrink_guard_eq h len (Or.inl hl)]
  · rw [Bool.not_eq_true] at hl
    by_cases h0 : h.begin = 0
    · rw [grow_guard_eq h max_cap len (Or.inr (Or.inr h0)),
        shrink_guard_eq h len (Or.inr (Or.inr h0))]
    · by_cases hm : h.end_ - h.begin = max_cap
      · -- Grow hits the full-capacity guard; the uncapped hypothesis forces
        -- `len mod 2^16 = 0`, so Shrink removes nothing.
        have hlen0 : len % 65536 = 0 := by omega
        rw [grow_guard_eq h max_cap len
          (Or.inr (Or.inl (by rw [i2size_sub_eq _ _ hbe hd]; exact hm)))]
        by_cases hcee : h.current = h.end_
        · rw [shrink_guard_eq h len (Or.inr (Or.inl hcee))]
        · rw [shrink_commit_eq h len hl hcee h0 (by omega) (by omega) he hd]
          rw [capacity_unlocked _ (by simpa [Header.IsLocked] using
              (by simpa [Header.IsLocked] using hl : ¬h.begin = 65535))
            (by simp only; omega) (by simp only; omega),
            capacity_unlocked h hl hbe hd]
          simp only
          omega
      · -- Grow commits and grants the full `len mod 2^16`.
        rw [grow_commit_eq h max_cap len hl hm h0 hbe hec hdm hmc hfit]
        set n := min (len % 65536) (max_cap - (h.end_ - h.begin)) with hn
        have hnval : n = len % 65536 := by omega
        set g : Header :=
          { h with end_ := h.end_ + n, end_copy := h.end_copy + n } with hg
        have hgl : g.IsLocked = false := by
          simp only [hg, Header.IsLocked] at hl ⊢
          exact hl
        by_cases hge : g.current = g.end_
        · -- Empty and nothing granted: Shrink hits its guard.
          rw [shrink_guard_eq g len (Or.inr (Or.inl hge))]
          have : h.end_ + n = h.begin := by
            simpa [hg, hcb] using hge.symm
          rw [capacity_unlocked g hgl (by simp only [hg]; omega)
            (by simp only [hg]; omega), capacity_unlocked h hl hbe hd]
          simp only [hg]
          omega
        · rw [shrink_commit_eq g len hgl hge (by simp only [hg]; omega)
            (by simp only [hg, hcb]; omega) (by simp only [hg]; omega)
            (by simp only [hg]; omega) (by simp only [hg]; omega)]
          rw [capacity_unlocked _ (by simpa [Header.IsLocked] using hgl)
            (by simp only [hg, hcb]; omega) (by simp only [hg]; omega),
            capacity_unlocked h hl hbe hd]
          simp only [hg, hcb]
          omega

/-- Claim C8 witness: Grow(3) then Shrink(3) on an empty sub-slab with
capacity 2 and `max_cap = 10` restores Capacity. -/
theorem grow_shrink_roundtrip_amended_witness :
    Capacity ((Shrink 3 (Grow 10 3 ⟨1, 3, 1, 3⟩).1).1) = Capacity ⟨1, 3, 1, 3⟩ :=
  grow_shrink_roundtrip_amended ⟨1, 3, 1, 3⟩ 10 3 (by decide) (by decide)
    (by decide) (by decide) (by decide) (by decide) (by decide) (by decide)

/-- Claim C3: for a non-null item, Push succeeds — writing the item to slot
`current`, incrementing `current` and returning true — exactly when
`current < end`; when `current >= end` (in particular whenever `end = 0`,
which is the locked-header case) it leaves the header and slots unmodified,
invokes `overflow_handler(cpu, size_class, item, arg)`, and returns false
exactly when that handler's value is negative.  Symmetrically, Pop with
`current <= begin` leaves the sub-slab unchanged, invokes
`underflow_handler(cpu, size_class, arg)` and returns its result.  The
theorem holds for every handler, so the returned value depends on the handler
exactly through its value at those arguments. -/
theorem push_pop_boundary (s : SubSlab) (cpu size_class item arg : Nat)
    (f : OverflowHandler) (g : UnderflowHandler)
    (hitem : item ≠ 0) (hwfe : s.hdr.end_ ≤ 65535) :
    (s.hdr.current < s.hdr.end_ →
      Push s cpu size_class item f arg =
        (⟨{ s.hdr with current := s.hdr.current + 1 },
          fun j => if j = s.hdr.current then item else s.slots j⟩, true)) ∧
    (s.hdr.end_ ≤ s.hdr.current →
      Push s cpu size_class item f arg =
        (s, decide (0 ≤ f cpu size_class item arg)) ∧
      ((Push s cpu size_class item f arg).2 = false ↔
        f cpu size_class item arg < 0)) ∧
    (s.hdr.end_ = 0 →
      Push s cpu size_class item f arg =
        (s, decide (0 ≤ f cpu size_class item arg))) ∧
    (s.hdr.current ≤ s.hdr.begin →
      Pop s cpu size_class g arg = (s, g cpu size_class arg)) := by
  refine ⟨fun hlt => ?_, fun hge => ⟨?_, ?_⟩, fun he0 => ?_, fun hle => ?_⟩
  · rw [Push, if_pos hlt, u16_eq_of_le _ (by omega)]
  · rw [Push, if_neg (by omega)]
  · rw [Push, if_neg (by omega)]
    simp only [decide_eq_false_iff_not, not_le]
  · rw [Push, if_neg (by omega)]
  · rw [Pop, if_neg (by omega)]

/-- Claim C3 witness: on a concrete full sub-slab (`current = end = 2`), Push
of item 5 leaves the state unchanged and propagates the handler sign; on a
concrete empty sub-slab Pop returns the underflow handler's value. -/
theorem push_pop_boundary_witness :
    (Push ⟨⟨2, 2, 1, 2⟩, fun _ => 0⟩ 0 7 5 NoopOverflow 0 =
      (⟨⟨2, 2, 1, 2⟩, fun _ => 0⟩, decide (0 ≤ NoopOverflow 0 7 5 0))) ∧
    ((Push ⟨⟨2, 2, 1, 2⟩, fun _ => 0⟩ 0 7 5 NoopOverflow 0).2 = false ↔
      NoopOverflow 0 7 5 0 < 0) ∧
    (Pop ⟨⟨1, 2, 1, 2⟩, fun _ => 0⟩ 0 7 NoopUnderflow 0 =
      (⟨⟨1, 2, 1, 2⟩, fun _ => 0⟩, NoopUnderflow 0 7 0)) :=
  ⟨((push_pop_boundary ⟨⟨2, 2, 1, 2⟩, fun _ => 0⟩ 0 7 5 0 NoopOverflow
      NoopUnderflow (by decide) (by decide)).2.1 (by decide)).1,
   ((push_pop_boundary ⟨⟨2, 2, 1, 2⟩, fun _ => 0⟩ 0 7 5 0 NoopOverflow
      NoopUnderflow (by decide) (by decide)).2.1 (by decide)).2,
   (push_pop_boundary ⟨⟨1, 2, 1, 2⟩, fun _ => 0⟩ 0 7 5 0 NoopOverflow
      NoopUnderflow (by decide) (by decide)).2.2.2 (by decide)⟩

/-! Helper lemmas for sequences of Push and Pop operations. -/

theorem pop_commit_eq (s : SubSlab) (cpu sc arg : Nat) (g : UnderflowHandler)
    (hlt : s.hdr.begin < s.hdr.current) :
    Pop s cpu sc g arg =
      (⟨{ s.hdr with current := u16 (s.hdr.current - 1) }, s.slots⟩,
       s.slots (s.hdr.current - 1)) := by
  rw [Pop, if_pos hlt]

theorem pushMany_cons_eq (cpu sc arg : Nat) (f : OverflowHandler) (s : SubSlab)
    (a : Nat) (l : List Nat) :
    pushMany cpu sc arg f s (a :: l) =
      pushMany cpu sc arg f (Push s cpu sc a f arg).1 l := rfl

theorem popMany_cons_eq (cpu sc arg : Nat) (g : UnderflowHandler) (s : SubSlab)
    (k : Nat) :
    popMany cpu sc arg g s (k + 1) =
      ((popMany cpu sc arg g (Pop s cpu sc g arg).1 k).1,
       (Pop s cpu sc g arg).2 ::
         (popMany cpu sc arg g (Pop s cpu sc g arg).1 k).2) := rfl

theorem pop_slots (s : SubSlab) (cpu sc arg : Nat) (g : UnderflowHandler) :
    (Pop s cpu sc g arg).1.slots = s.slots := by
  rw [Pop]
  by_cases h : s.hdr.begin < s.hdr.current
  · rw [if_pos h]
  · rw [if_neg h]

theorem popMany_slots (cpu sc arg : Nat) (g : UnderflowHandler) :
    ∀ (k : Nat) (s : SubSlab),
      ((popMany cpu sc arg g s k).1).slots = s.slots := by
  intro k
  induction k with
  | zero => intro s; rfl
  | succ k ih =>
    intro s
    rw [popMany_cons_eq]
    dsimp only
    rw [ih, pop_slots]

theorem popMany_succ (cpu sc arg : Nat) (g : UnderflowHandler) :
    ∀ (k : Nat) (s : SubSlab),
      popMany cpu sc arg g s (k + 1) =
        ((Pop (popMany cpu sc arg g s k).1 cpu sc g arg).1,
         (popMany cpu sc arg g s k).2 ++
           [(Pop (popMany cpu sc arg g s k).1 cpu sc g arg).2]) := by
  intro k
  induction k with
  | zero => intro s; rfl
  | succ k ih =>
    intro s
    rw [popMany_cons_eq cpu sc arg g s (k + 1), ih,
      popMany_cons_eq cpu sc arg g s k]
    dsimp only
    rw [List.cons_append]

theorem pushMany_slots_lo (cpu sc arg : Nat) (f : OverflowHandler) :
    ∀ (l : List Nat) (s : SubSlab) (j : Nat), s.hdr.end_ ≤ 65535 →
      j < s.hdr.current → (pushMany cpu sc arg f s l).slots j = s.slots j := by
  intro l
  induction l with
  | nil => intro s j _ _; rfl
  | cons a l ih =>
    intro s j he hj
    rw [pushMany_cons_eq]
    by_cases hlt : s.hdr.current < s.hdr.end_
    · have hpush : (Push s cpu sc a f arg).1 =
          ⟨{ s.hdr with current := s.hdr.current + 1 },
           fun j' => if j' = s.hdr.current then a else s.slots j'⟩ := by
        rw [Push, if_pos hlt]
        dsimp only
        rw [u16_eq_of_le _ (by omega)]
      rw [hpush, ih _ j (by dsimp only; omega) (by dsimp only; omega)]
      dsimp only
      rw [if_neg (by omega)]
    · have hpush : (Push s cpu sc a f arg).1 = s := by
        rw [Push, if_neg hlt]
      rw [hpush]
      exact ih s j he hj

/-- Claim C1: on one sub-slab with `begin ≤ current` and room for `N` more
items (`current + N ≤ end`, 16-bit fields), a sequence of `N` Push operations
followed by `N` Pop operations, with no intervening operation, returns the
pushed items in reverse order and restores the header; in particular
(`l = [x]`) a Push immediately followed by a Pop returns the item just
pushed. -/
theorem push_pop_lifo (cpu sc arg : Nat) (f : OverflowHandler)
    (g : UnderflowHandler) :
    ∀ (l : List Nat) (s : SubSlab),
      s.hdr.end_ ≤ 65535 → s.hdr.begin ≤ s.hdr.current →
      s.hdr.current + l.length ≤ s.hdr.end_ →
      (popMany cpu sc arg g (pushMany cpu sc arg f s l) l.length).2 =
        l.reverse ∧
      (popMany cpu sc arg g (pushMany cpu sc arg f s l) l.length).1.hdr =
        s.hdr := by
  intro l
  induction l with
  | nil => intro s _ _ _; exact ⟨rfl, rfl⟩
  | cons a l ih =>
    rintro ⟨⟨c0, e0, b0, d0⟩, sl⟩ he hb hc
    rw [List.length_cons] at hc
    dsimp only at he hb hc
    have hlt : c0 < d0 := by omega
    have hpush : (Push ⟨⟨c0, e0, b0, d0⟩, sl⟩ cpu sc a f arg).1 =
        ⟨⟨c0 + 1, e0, b0, d0⟩, fun j' => if j' = c0 then a else sl j'⟩ := by
      rw [Push]
      dsimp only
      rw [if_pos hlt, u16_eq_of_le _ (by omega)]
    rw [pushMany_cons_eq, hpush, List.length_cons, popMany_succ]
    set s1 : SubSlab :=
      ⟨⟨c0 + 1, e0, b0, d0⟩, fun j' => if j' = c0 then a else sl j'⟩ with hs1
    obtain ⟨ih2, ih1⟩ := ih s1 (by rw [hs1]; exact he)
      (by rw [hs1]; dsimp only; omega) (by rw [hs1]; dsimp only; omega)
    have hqslots :
        (popMany cpu sc arg g (pushMany cpu sc arg f s1 l) l.length).1.slots =
          (pushMany cpu sc arg f s1 l).slots :=
      popMany_slots cpu sc arg g l.length (pushMany cpu sc arg f s1 l)
    have hlo : (pushMany cpu sc arg f s1 l).slots c0 = s1.slots c0 := by
      refine pushMany_slots_lo cpu sc arg f l s1 c0 ?_ ?_
      · rw [hs1]; exact he
      · rw [hs1]; dsimp only; omega
    have hs1top : s1.slots c0 = a := by
      rw [hs1]; dsimp only; rw [if_pos rfl]
    have hpop : Pop (popMany cpu sc arg g (pushMany cpu sc arg f s1 l) l.length).1
        cpu sc g arg =
        (⟨⟨c0, e0, b0, d0⟩,
          (popMany cpu sc arg g (pushMany cpu sc arg f s1 l) l.length).1.slots⟩,
         a) := by
      rw [pop_commit_eq _ _ _ _ _ (by rw [ih1, hs1]; dsimp only; omega), ih1]
      rw [hs1]
      dsimp only
      rw [u16_eq_of_le _ (by omega), Nat.add_sub_cancel]
      rw [← hs1, hqslots, hlo, hs1top]
    rw [hpop]
    constructor
    · dsimp only
      rw [ih2, List.reverse_cons]
    · rfl

/-- Claim C1 witness: pushing `[3, 4, 9]` onto a concrete sub-slab with
room for three items and popping three times yields `[9, 4, 3]` and restores
the header. -/
theorem push_pop_lifo_witness :
    (popMany 0 0 0 NoopUnderflow
      (pushMany 0 0 0 NoopOverflow ⟨⟨2, 5, 1, 5⟩, fun _ => 0⟩ [3, 4, 9]) 3).2 =
      [9, 4, 3] ∧
    (popMany 0 0 0 NoopUnderflow
      (pushMany 0 0 0 NoopOverflow ⟨⟨2, 5, 1, 5⟩, fun _ => 0⟩ [3, 4, 9]) 3).1.hdr =
      ⟨2, 5, 1, 5⟩ := by
  have h := push_pop_lifo 0 0 0 NoopOverflow NoopUnderflow [3, 4, 9]
    ⟨⟨2, 5, 1, 5⟩, fun _ => 0⟩ (by decide) (by decide) (by decide)
  simpa using h

/-! Evaluation lemmas for `ShrinkOtherCache`, one per branch of the
`unused < len` test. -/

theorem shrinkOtherCache_pop_eq (s : SubSlab) (len : Nat)
    (hb : s.hdr.begin ≤ s.hdr.current) (hc : s.hdr.current ≤ s.hdr.end_copy)
    (he : s.hdr.end_copy ≤ 65535)
    (hlt : s.hdr.end_copy - s.hdr.current < len) :
    ShrinkOtherCache s len =
      (⟨⟨s.hdr.current -
            min ((len - (s.hdr.end_copy - s.hdr.current)) % 65536)
              (s.hdr.current - s.hdr.begin),
          s.hdr.end_copy -
            min (len % 65536)
              (s.hdr.end_copy -
                (s.hdr.current -
                  min ((len - (s.hdr.end_copy - s.hdr.current)) % 65536)
                    (s.hdr.current - s.hdr.begin))),
          s.hdr.begin,
          s.hdr.end_copy -
            min (len % 65536)
              (s.hdr.end_copy -
                (s.hdr.current -
                  min ((len - (s.hdr.end_copy - s.hdr.current)) % 65536)
                    (s.hdr.current - s.hdr.begin)))⟩,
        s.slots⟩,
       min (len % 65536)
         (s.hdr.end_copy -
           (s.hdr.current -
             min ((len - (s.hdr.end_copy - s.hdr.current)) % 65536)
               (s.hdr.current - s.hdr.begin))),
       some ((List.range
           (min ((len - (s.hdr.end_copy - s.hdr.current)) % 65536)
             (s.hdr.current - s.hdr.begin))).map
         (fun i => s.slots
           (s.hdr.current -
             min ((len - (s.hdr.end_copy - s.hdr.current)) % 65536)
               (s.hdr.current - s.hdr.begin) + i)))) := by
  obtain ⟨⟨c0, e0, b0, d0⟩, sl⟩ := s
  dsimp only at hb hc he hlt ⊢
  have hu : i2u16 ((e0 : Int) - c0) = e0 - c0 := by
    simp only [i2u16]; omega
  have hap : i2u16 ((c0 : Int) - b0) = c0 - b0 := by
    simp only [i2u16]; omega
  have hu16 : ∀ m : Nat, u16 m = m % 65536 := fun m => rfl
  simp only [ShrinkOtherCache, hu, hap, hu16, if_pos hlt]
  set ap := min ((len - (e0 - c0)) % 65536) (c0 - b0) with hapv
  have hc1 : i2u16 ((c0 : Int) - ap) = c0 - ap := by
    simp only [i2u16]; omega
  simp only [hc1]
  have hts : i2u16 ((e0 : Int) - ((c0 - ap : Nat) : Int)) = e0 - (c0 - ap) := by
    simp only [i2u16]; omega
  simp only [hts]
  have hec1 : i2u16 ((e0 : Int) -
      ((min (len % 65536) (e0 - (c0 - ap)) : Nat) : Int)) =
      e0 - min (len % 65536) (e0 - (c0 - ap)) := by
    simp only [i2u16]; omega
  simp only [hec1]

theorem shrinkOtherCache_nopop_eq (s : SubSlab) (len : Nat)
    (hc : s.hdr.current ≤ s.hdr.end_copy) (he : s.hdr.end_copy ≤ 65535)
    (hge : len ≤ s.hdr.end_copy - s.hdr.current) :
    ShrinkOtherCache s len =
      (⟨⟨s.hdr.current,
          s.hdr.end_copy - min (len % 65536) (s.hdr.end_copy - s.hdr.current),
          s.hdr.begin,
          s.hdr.end_copy - min (len % 65536) (s.hdr.end_copy - s.hdr.current)⟩,
        s.slots⟩,
       min (len % 65536) (s.hdr.end_copy - s.hdr.current),
       none) := by
  obtain ⟨⟨c0, e0, b0, d0⟩, sl⟩ := s
  dsimp only at hc he hge ⊢
  have hu : i2u16 ((e0 : Int) - c0) = e0 - c0 := by
    simp only [i2u16]; omega
  have hu16 : ∀ m : Nat, u16 m = m % 65536 := fun m => rfl
  have hnlt : ¬(e0 - c0 < len) := by omega
  simp only [ShrinkOtherCache, hu, hu16, if_neg hnlt]
  set ts := min (len % 65536) (e0 - c0) with htsv
  have hec1 : i2u16 ((e0 : Int) - ts) = e0 - ts := by
    simp only [i2u16, htsv]; omega
  simp only [hec1]

/-- Claim C2: the unlocked-header invariant `begin ≤ current ≤ end` and
`end_copy == end` (together with 16-bit representability of the fields) is
preserved by every slab operation's transition on a sub-slab header: Push,
Pop, Grow, Shrink, InitCpu, Drain and ShrinkOtherCache (each modelled by the
corresponding `OpStep` constructor; `InitCpu` and `Drain` establish it
outright for the headers they write). -/
theorem header_invariant_preserved (h h' : Header) (hwf : Wf h) (hinv : Inv h)
    (hs : OpStep h h') : Inv h' ∧ Wf h' := by
  cases hs with
  | push s cpu sc item arg f =>
    obtain ⟨⟨c0, e0, b0, d0⟩, sl⟩ := s
    obtain ⟨hwc, hwe, hwb, hwd⟩ := hwf
    obtain ⟨h1, h2, h3⟩ := hinv
    dsimp only at hwc hwe hwb hwd h1 h2 h3 ⊢
    rw [Push]
    dsimp only
    by_cases hlt : c0 < d0
    · rw [if_pos hlt]
      dsimp only
      simp only [Inv, Wf, u16]
      omega
    · rw [if_neg hlt]
      exact ⟨⟨h1, h2, h3⟩, hwc, hwe, hwb, hwd⟩
  | pop s cpu sc arg g =>
    obtain ⟨⟨c0, e0, b0, d0⟩, sl⟩ := s
    obtain ⟨hwc, hwe, hwb, hwd⟩ := hwf
    obtain ⟨h1, h2, h3⟩ := hinv
    dsimp only at hwc hwe hwb hwd h1 h2 h3 ⊢
    rw [Pop]
    dsimp only
    by_cases hlt : b0 < c0
    · rw [if_pos hlt]
      dsimp only
      simp only [Inv, Wf, u16]
      omega
    · rw [if_neg hlt]
      exact ⟨⟨h1, h2, h3⟩, hwc, hwe, hwb, hwd⟩
  | grow h max_cap len hmc hfit hdiff =>
    obtain ⟨hwc, hwe, hwb, hwd⟩ := hwf
    obtain ⟨h1, h2, h3⟩ := hinv
    by_cases hg : (h.IsLocked = true ∨
        i2size ((h.end_ : Int) - h.begin) = max_cap ∨ h.begin = 0)
    · rw [grow_guard_eq h max_cap len hg]
      exact ⟨⟨h1, h2, h3⟩, hwc, hwe, hwb, hwd⟩
    · push_neg at hg
      obtain ⟨hgl, hgm, hg0⟩ := hg
      rw [grow_commit_eq h max_cap len (by simpa using hgl)
        (by rw [← i2size_sub_eq h.end_ h.begin (by omega) hwd]; exact hgm)
        hg0 (by omega) h3 (by omega) hmc hfit]
      obtain ⟨c0, e0, b0, d0⟩ := h
      simp only [Inv, Wf, and_true] at *
      omega
  | shrink h len =>
    obtain ⟨hwc, hwe, hwb, hwd⟩ := hwf
    obtain ⟨h1, h2, h3⟩ := hinv
    by_cases hg : (h.IsLocked = true ∨ h.current = h.end_ ∨ h.begin = 0)
    · rw [shrink_guard_eq h len hg]
      exact ⟨⟨h1, h2, h3⟩, hwc, hwe, hwb, hwd⟩
    · push_neg at hg
      obtain ⟨hgl, hgm, hg0⟩ := hg
      rw [shrink_commit_eq h len (by simpa using hgl) hgm hg0 h2 (by omega)
        hwe hwd]
      obtain ⟨c0, e0, b0, d0⟩ := h
      simp only [Inv, Wf, and_true] at *
      omega
  | initcpu h b hb =>
    exact ⟨⟨le_refl b, le_refl b, rfl⟩, hb, hb, hb, hb⟩
  | drain h =>
    obtain ⟨hwc, hwe, hwb, hwd⟩ := hwf
    exact ⟨⟨le_refl _, le_refl _, rfl⟩, hwb, hwb, hwb, hwb⟩
  | shrinkOther s len hnl =>
    obtain ⟨hwc, hwe, hwb, hwd⟩ := hwf
    obtain ⟨h1, h2, h3⟩ := hinv
    by_cases hpop : s.hdr.end_copy - s.hdr.current < len
    · rw [shrinkOtherCache_pop_eq s len h1 (by omega) (by omega) hpop]
      obtain ⟨⟨c0, e0, b0, d0⟩, sl⟩ := s
      simp only [Inv, Wf, and_true] at *
      set AP := min ((len - (e0 - c0)) % 65536) (c0 - b0) with hAP
      have hAPle : AP ≤ c0 - b0 := min_le_right _ _
      set TS := min (len % 65536) (e0 - (c0 - AP)) with hTS
      have hTSle : TS ≤ e0 - (c0 - AP) := min_le_right _ _
      omega
    · rw [shrinkOtherCache_nopop_eq s len (by omega) (by omega) (by omega)]
      obtain ⟨⟨c0, e0, b0, d0⟩, sl⟩ := s
      simp only [Inv, Wf, and_true] at *
      set TS := min (len % 65536) (e0 - c0) with hTS
      have hTSle : TS ≤ e0 - c0 := min_le_right _ _
      omega

/-- Claim C2 witness: a Push step on a concrete sub-slab with the invariant
satisfied preserves the invariant. -/
theorem header_invariant_preserved_witness :
    Inv (Push ⟨⟨2, 5, 1, 5⟩, fun _ => 0⟩ 0 0 7 NoopOverflow 0).1.hdr ∧
    Wf (Push ⟨⟨2, 5, 1, 5⟩, fun _ => 0⟩ 0 0 7 NoopOverflow 0).1.hdr :=
  header_invariant_preserved ⟨2, 5, 1, 5⟩ _ (by decide) (by decide)
    (OpStep.push ⟨⟨2, 5, 1, 5⟩, fun _ => 0⟩ 0 0 7 0 NoopOverflow)

/-- Claim C6: after `Drain(cpu)` returns, `Length(cpu, sc) = 0` and
`Capacity(cpu, sc) = 0` for every size class `sc < NumClasses`, and the drain
handler was invoked exactly once per size class, in increasing class order,
with the batch at `&slots[begin[sc]]`, `size = current - begin[sc]` and
`cap = end_copy - begin[sc]` (the snapshot `begin[sc]` and the `current` and
`end_copy` fields surviving the lock are those of the pre-drain header). -/
theorem drain_empties_and_reports (numClasses : Nat) (c : CpuSlab)
    (hok : ∀ sc, sc < numClasses → Inv (c.hdrs sc) ∧ Wf (c.hdrs sc)) :
    (∀ sc, sc < numClasses →
      Length ((Drain numClasses c).1.hdrs sc) = 0 ∧
      Capacity ((Drain numClasses c).1.hdrs sc) = 0) ∧
    (Drain numClasses c).2 =
      (List.range numClasses).map (fun sc =>
        (sc,
         (List.range ((c.hdrs sc).current - (c.hdrs sc).begin)).map
           (fun i => c.slots ((c.hdrs sc).begin + i)),
         (c.hdrs sc).current - (c.hdrs sc).begin,
         (c.hdrs sc).end_copy - (c.hdrs sc).begin)) := by
  constructor
  · intro sc hsc
    have hfinal : (Drain numClasses c).1.hdrs sc =
        ⟨(c.hdrs sc).begin, (c.hdrs sc).begin, (c.hdrs sc).begin,
         (c.hdrs sc).begin⟩ := by
      simp only [Drain]
      rw [if_pos hsc]
    rw [hfinal]
    constructor
    · rw [Length]
      split
      · rfl
      · simp [i2size]
    · rw [Capacity]
      split
      · rfl
      · simp [i2size]
  · simp only [Drain, DrainCpu]
    refine List.map_congr_left ?_
    intro sc hsc
    rw [List.mem_range] at hsc
    obtain ⟨⟨h1, h2, h3⟩, hwc, hwe, hwb, hwd⟩ := hok sc hsc
    have hlocked : lockAll numClasses c.hdrs sc = (c.hdrs sc).Lock := by
      rw [lockAll, if_pos hsc]
    have hcur : ((c.hdrs sc).Lock).current = (c.hdrs sc).current := rfl
    have hec : ((c.hdrs sc).Lock).end_copy = (c.hdrs sc).end_copy := rfl
    rw [hlocked, hcur, hec]
    rw [i2size_sub_eq _ _ h1 hwc, i2size_sub_eq _ _ (by omega) hwe]

/-- Claim C6 witness: draining a concrete two-class CPU slab (class 0 holds
two items at slots 1 and 2 with capacity 3, class 1 is empty with capacity 2)
zeroes Length and Capacity for both classes and reports
`(sc, batch, size, cap)` for each class in order. -/
theorem drain_empties_and_reports_witness :
    (∀ sc, sc < 2 →
      Length ((Drain 2 ⟨fun sc => if sc = 0 then ⟨3, 4, 1, 4⟩ else ⟨6, 8, 6, 8⟩,
        fun j => 100 + j⟩).1.hdrs sc) = 0 ∧
      Capacity ((Drain 2 ⟨fun sc => if sc = 0 then ⟨3, 4, 1, 4⟩ else ⟨6, 8, 6, 8⟩,
        fun j => 100 + j⟩).1.hdrs sc) = 0) ∧
    (Drain 2 ⟨fun sc => if sc = 0 then ⟨3, 4, 1, 4⟩ else ⟨6, 8, 6, 8⟩,
      fun j => 100 + j⟩).2 =
      [(0, [101, 102], 2, 3), (1, [], 0, 2)] := by
  have h := drain_empties_and_reports 2
    ⟨fun sc => if sc = 0 then ⟨3, 4, 1, 4⟩ else ⟨6, 8, 6, 8⟩, fun j => 100 + j⟩
    (by intro sc hsc
        interval_cases sc <;> exact ⟨by decide, by decide⟩)
  refine ⟨h.1, ?_⟩
  rw [h.2]
  rfl

/-- Claim C7 counterexample: the claim states that ShrinkOtherCache reduces
`end` and `end_copy` by `min(len, end_copy - current)` (current taken after
the pop) and returns that decrement.  At `len = 65536 > 0` on the unlocked
header `(current, end_copy, begin, end) = (1, 3, 1, 3)` the pop leaves
`current = 1`, so the claimed decrement is `min(65536, 2) = 2`, but the code
converts `len` to `uint16_t` (0) in `std::min<uint16_t>` and returns 0. -/
theorem shrink_other_cache_counterexample :
    (ShrinkOtherCache ⟨⟨1, 3, 1, 3⟩, fun _ => 7⟩ 65536).2.1 = 0 ∧
    ¬(ShrinkOtherCache ⟨⟨1, 3, 1, 3⟩, fun _ => 7⟩ 65536).2.1 =
      min 65536 (3 - 1) := by
  constructor
  · rfl
  · intro hc
    exact absurd hc (by decide)

/-- Claim C7, amended for the `uint16_t` conversions of `len - unused` and
`len` (`expected_pop` is a `uint16_t` local and `std::min<uint16_t>` truncates
`len` mod 2^16): for `len > 0` on an initially unlocked header,
ShrinkOtherCache, with `unused = end_copy - current`, pops
`actual_pop = min((len - unused) mod 2^16, current - begin)` items from the
top of the occupied region exactly when `unused < len` and hands exactly those
items to `shrink_handler` in one call; it then reduces `end` and `end_copy` by
`min(len mod 2^16, end_copy - current)` (current taken after the pop),
restores the original `begin`, leaves the slots unchanged, and returns the
decrement applied. -/
theorem shrink_other_cache_amended (s : SubSlab) (len : Nat)
    (hlen : 0 < len) (hwf : Wf s.hdr) (hinv : Inv s.hdr)
    (hnl : s.hdr.IsLocked = false) :
    (ShrinkOtherCache s len).2.1 =
      min (len % 65536)
        (s.hdr.end_copy -
          (if s.hdr.end_copy - s.hdr.current < len then
            s.hdr.current -
              min ((len - (s.hdr.end_copy - s.hdr.current)) % 65536)
                (s.hdr.current - s.hdr.begin)
          else s.hdr.current)) ∧
    (ShrinkOtherCache s len).1.hdr =
      ⟨(if s.hdr.end_copy - s.hdr.current < len then
          s.hdr.current -
            min ((len - (s.hdr.end_copy - s.hdr.current)) % 65536)
              (s.hdr.current - s.hdr.begin)
        else s.hdr.current),
        s.hdr.end_copy - (ShrinkOtherCache s len).2.1,
        s.hdr.begin,
        s.hdr.end_copy - (ShrinkOtherCache s len).2.1⟩ ∧
    (ShrinkOtherCache s len).1.slots = s.slots ∧
    (ShrinkOtherCache s len).2.2 =
      (if s.hdr.end_copy - s.hdr.current < len then
        some ((List.range
            (min ((len - (s.hdr.end_copy - s.hdr.current)) % 65536)
              (s.hdr.current - s.hdr.begin))).map
          (fun i => s.slots
            (s.hdr.current -
              min ((len - (s.hdr.end_copy - s.hdr.current)) % 65536)
                (s.hdr.current - s.hdr.begin) + i)))
      else none) := by
  obtain ⟨h1, h2, h3⟩ := hinv
  obtain ⟨hwc, hwe, hwb, hwd⟩ := hwf
  by_cases hpop : s.hdr.end_copy - s.hdr.current < len
  · rw [shrinkOtherCache_pop_eq s len h1 (by omega) (by omega) hpop]
    simp only [if_pos hpop]
    refine ⟨?_, ?_, ?_, ?_⟩ <;> trivial
  · rw [shrinkOtherCache_nopop_eq s len (by omega) (by omega) (by omega)]
    simp only [if_neg hpop]
    refine ⟨?_, ?_, ?_, ?_⟩ <;> trivial

/-- Claim C7 witness: on the unlocked header `(3, 5, 1, 5)` (two occupied
slots, two unused) with `len = 3`, ShrinkOtherCache pops one item (handing
exactly `[slots 2]` to the handler), reduces the capacity by 3, restores
`begin = 1` and returns 3. -/
theorem shrink_other_cache_amended_witness :
    (ShrinkOtherCache ⟨⟨3, 5, 1, 5⟩, fun _ => 7⟩ 3).2.1 = 3 ∧
    (ShrinkOtherCache ⟨⟨3, 5, 1, 5⟩, fun _ => 7⟩ 3).1.hdr = ⟨2, 2, 1, 2⟩ ∧
    (ShrinkOtherCache ⟨⟨3, 5, 1, 5⟩, fun _ => 7⟩ 3).2.2 = some [7] := by
  have h := shrink_other_cache_amended ⟨⟨3, 5, 1, 5⟩, fun _ => 7⟩ 3
    (by decide) (by decide) (by decide) (by decide)
  obtain ⟨ha, hb, hc, hd⟩ := h
  refine ⟨?_, ?_, ?_⟩
  · rw [ha]; rfl
  · rw [hb, ha]; rfl
  · rw [hd]; rfl

end PercpuTcmalloc
